import Mathlib

/-!
Verification of the pure domain-translation core of the PowerDNS Terraform
provider: CIDR validation, reverse-zone-name conversion, PTR-name conversion
(spec sections 4.1-4.3), and the record-ID helpers and PTR owner-name
construction of `internal/provider/client.go`.

The five core functions (`ValidateCIDR`, `GetReverseZoneName`,
`ParseReverseZoneName`, `GetPTRRecordName`, `ParsePTRRecordName`) are declared
and tested in the repository but their defining file is not present; they are
modelled here from the specification.  The record-ID helpers (`Record.ID`,
`parseID`) and the PTR resource's owner-name construction are embedded from
`client.go` directly.  Strings are handled through their character lists;
`splitOnSub` models Go's `strings.Split` (leftmost, non-overlapping).
-/

namespace PDNS

/-- Fuelled scanner for `splitOnSub`: splits on the nonempty separator
`a :: ss`, taking the leftmost match first and never overlapping matches,
exactly as Go's `strings.Split` does for a nonempty separator.  The fuel
only bounds the recursion; it is adequate whenever it is at least the
length of the scanned list. -/
def splitOnSubFuel (a : Char) (ss : List Char) : Nat → List Char → List (List Char)
  | _, [] => [[]]
  | 0, cs => [cs]
  | fuel + 1, c :: rest =>
    if a = c ∧ ss <+: rest then
      [] :: splitOnSubFuel a ss fuel (rest.drop ss.length)
    else
      match splitOnSubFuel a ss fuel rest with
      | [] => [[c]]
      | y :: ys => (c :: y) :: ys

/-- Scanner for `splitOnSub` on a nonempty separator `a :: ss`. -/
def splitOnSubNE (a : Char) (ss : List Char) (cs : List Char) : List (List Char) :=
  splitOnSubFuel a ss cs.length cs

/-- Model of Go's `strings.Split sep` on character lists (Go's behaviour for
the empty separator is never used by this code base and is mapped to the
identity split). -/
def splitOnSub (sep : List Char) (cs : List Char) : List (List Char) :=
  match sep with
  | [] => [cs]
  | a :: ss => splitOnSubNE a ss cs

/-- An IP address as the PowerDNS translation core sees it: four octets for
IPv4, thirty-two nibbles for IPv6 (spec section 3). -/
inductive IPAddr where
  | v4 (octets : List Nat)
  | v6 (nibbles : List Nat)
deriving DecidableEq

/-- Value of one hexadecimal digit character, accepting both cases as Go's
parser does. -/
def hexVal (c : Char) : Option Nat :=
  if '0' ≤ c ∧ c ≤ '9' then some (c.toNat - ('0').toNat)
  else if 'a' ≤ c ∧ c ≤ 'f' then some (c.toNat - ('a').toNat + 10)
  else if 'A' ≤ c ∧ c ≤ 'F' then some (c.toNat - ('A').toNat + 10)
  else none

/-- Value of a label that must consist of a single hexadecimal digit. -/
def singleHexVal (l : List Char) : Option Nat :=
  match l with
  | [c] => hexVal c
  | _ => none

/-- Value of one decimal digit character. -/
def decVal (c : Char) : Option Nat :=
  if '0' ≤ c ∧ c ≤ '9' then some (c.toNat - ('0').toNat)
  else none

/-- Decimal number parser: digits only, nonempty, no leading zero (as Go's
address parser requires since 1.17). -/
def parseDecimal (cs : List Char) : Option Nat :=
  match cs with
  | [] => none
  | ['0'] => some 0
  | '0' :: _ :: _ => none
  | _ => cs.foldlM (fun acc c => (decVal c).map fun d => acc * 10 + d) 0

/-- One dotted-quad component: a decimal number of at most 255. -/
def parseOctet (cs : List Char) : Option Nat :=
  match parseDecimal cs with
  | some v => if v ≤ 255 then some v else none
  | none => none

/-- Modelled from the spec: textual IPv4 address parse (stands in for the Go
standard library's `net.ParseIP`, which is not part of this repository):
four dot-separated octets. -/
def parseIPv4chars (cs : List Char) : Option (List Nat) :=
  match (cs.splitOn '.').mapM parseOctet with
  | some os => if os.length = 4 then some os else none
  | none => none

/-- One 16-bit IPv6 group of 1-4 hex digits, returned as its four nibbles. -/
def parseGroup (cs : List Char) : Option (List Nat) :=
  if cs.length = 0 ∨ 4 < cs.length then none
  else
    match cs.mapM hexVal with
    | some vs => some (List.replicate (4 - vs.length) 0 ++ vs)
    | none => none

/-- Modelled from the spec: textual IPv6 address parse (stands in for the Go
standard library's `net.ParseIP`): colon-separated hex groups with at most
one `::` compression, returned as 32 nibbles. -/
def parseIPv6chars (cs : List Char) : Option (List Nat) :=
  match splitOnSub [':', ':'] cs with
  | [one] =>
    let gs := one.splitOn ':'
    if gs.length = 8 then
      match gs.mapM parseGroup with
      | some ns => some ns.flatten
      | none => none
    else none
  | [l, r] =>
    let lg := if l.isEmpty then [] else l.splitOn ':'
    let rg := if r.isEmpty then [] else r.splitOn ':'
    if lg.length + rg.length ≤ 7 then
      match lg.mapM parseGroup, rg.mapM parseGroup with
      | some ln, some rn =>
        some (ln.flatten ++ List.replicate (4 * (8 - lg.length - rg.length)) 0 ++ rn.flatten)
      | _, _ => none
    else none
  | _ => none

/-- The four octets of an IPv4-mapped IPv6 address (`::ffff:a.b.c.d`), when
the nibble list is of that shape; mirrors `net.IP.To4`. -/
def v4MappedOctets (ns : List Nat) : Option (List Nat) :=
  if ns.take 20 = List.replicate 20 0 ∧ (ns.drop 20).take 4 = [15, 15, 15, 15] then
    some [16 * ns.getD 24 0 + ns.getD 25 0, 16 * ns.getD 26 0 + ns.getD 27 0,
      16 * ns.getD 28 0 + ns.getD 29 0, 16 * ns.getD 30 0 + ns.getD 31 0]
  else none

/-- Modelled from the spec: textual IP address parse standing in for the Go
standard library's `net.ParseIP`.  The 32-bit/128-bit address invariants of
spec section 3 are stated explicitly, and an IPv4-mapped IPv6 address is
canonicalized to its IPv4 form, as `net.IP.To4` makes every consumer in this
code base do. -/
def parseIPchars (cs : List Char) : Option IPAddr :=
  match parseIPv4chars cs with
  | some os => if os.length = 4 ∧ ∀ o ∈ os, o < 256 then some (.v4 os) else none
  | none =>
    match parseIPv6chars cs with
    | some ns =>
      if ns.length = 32 ∧ ∀ n ∈ ns, n < 16 then
        match v4MappedOctets ns with
        | some os => if os.length = 4 ∧ ∀ o ∈ os, o < 256 then some (.v4 os) else none
        | none => some (.v6 ns)
      else none
    | none => none

/-- Modelled from the spec: `net.ParseIP` on a string. -/
def parseIP (s : String) : Option IPAddr :=
  parseIPchars s.toList

/-- Modelled from the spec: `net.ParseCIDR` - an address, a slash and a
decimal prefix length bounded by the family's bit width. -/
def parseCIDR (s : String) : Option (IPAddr × Nat) :=
  match s.toList.splitOn '/' with
  | [a, m] =>
    match parseDecimal m, parseIPchars a with
    | some p, some (IPAddr.v4 os) => if p ≤ 32 then some (.v4 os, p) else none
    | some p, some (IPAddr.v6 ns) => if p ≤ 128 then some (.v6 ns, p) else none
    | _, _ => none
  | _ => none

/-- Fuelled decimal digit extraction, most significant first; the fuel is
adequate whenever it exceeds the number. -/
def natCharsAux : Nat → Nat → List Char
  | 0, _ => []
  | fuel + 1, n =>
    if n < 10 then [Nat.digitChar n]
    else natCharsAux fuel (n / 10) ++ [Nat.digitChar (n % 10)]

/-- Decimal digit characters of a natural number, most significant first. -/
def natChars (n : Nat) : List Char :=
  natCharsAux (n + 1) n

/-- Decimal rendering of a natural number. -/
def natStr (n : Nat) : String :=
  String.mk (natChars n)

/-- Fuelled hexadecimal digit extraction, most significant first. -/
def hexCharsAux : Nat → Nat → List Char
  | 0, _ => []
  | fuel + 1, n =>
    if n < 16 then [Nat.digitChar n]
    else hexCharsAux fuel (n / 16) ++ [Nat.digitChar (n % 16)]

/-- Lowercase hexadecimal digit characters of a natural number, most
significant first, no leading zeros (as Go renders IPv6 groups). -/
def hexChars (n : Nat) : List Char :=
  hexCharsAux (n + 1) n

/-- The 16-bit group values of a nibble list, four nibbles per group. -/
def nibbleGroups : List Nat → List Nat
  | a :: b :: c :: d :: rest => (((a * 16 + b) * 16 + c) * 16 + d) :: nibbleGroups rest
  | _ => []

/-- For each position, the length of the run of zero groups starting there. -/
def zeroRuns : List Nat → List Nat
  | [] => []
  | g :: rest =>
    let r := zeroRuns rest
    (if g = 0 then (r.headD 0) + 1 else 0) :: r

/-- Position and value of the leftmost maximum of a list (folded with a
running best, strict improvement only, so ties keep the leftmost). -/
def bestRunAux : List Nat → Nat → Nat × Nat → Nat × Nat
  | [], _, b => b
  | v :: rest, i, b => bestRunAux rest (i + 1) (if b.2 < v then (i, v) else b)

/-- Labels joined with dots. -/
def dotJoin (ls : List (List Char)) : List Char :=
  List.intercalate ['.'] ls

/-- Groups joined with colons. -/
def colonJoin (gs : List (List Char)) : List Char :=
  List.intercalate [':'] gs

/-- Canonical textual form of an IPv6 nibble list, following `net.IP.String`:
hex groups without leading zeros, the leftmost longest run of at least two
zero groups compressed to `::`. -/
def renderV6 (ns : List Nat) : String :=
  let gs := nibbleGroups ns
  let best := bestRunAux (zeroRuns gs) 0 (0, 0)
  if 2 ≤ best.2 then
    String.mk (colonJoin ((gs.take best.1).map hexChars)) ++ "::" ++
      String.mk (colonJoin ((gs.drop (best.1 + best.2)).map hexChars))
  else
    String.mk (colonJoin (gs.map hexChars))

/-- Canonical textual form of an address: dotted quad for IPv4, compressed
lowercase hex for IPv6. -/
def ipCanonical : IPAddr → String
  | .v4 os => String.mk (dotJoin (os.map natChars))
  | .v6 ns => renderV6 ns

/-- Family-appropriate arpa suffix of an address: `.in-addr.arpa.` for IPv4
and `.ip6.arpa.` for IPv6. -/
def arpaSuffix : IPAddr → String
  | .v4 _ => ".in-addr.arpa."
  | .v6 _ => ".ip6.arpa."

/-- The reverse zone name of a parsed CIDR block: the octets (IPv4) or
nibbles (IPv6) covered by the prefix, reversed, dot-joined and closed with
the family's arpa suffix. -/
def reverseZoneName : IPAddr → Nat → String
  | .v4 os, p =>
    String.mk (dotJoin (((os.take (p / 8)).reverse).map natChars)) ++ ".in-addr.arpa."
  | .v6 ns, p =>
    String.mk (dotJoin (((ns.take (p / 4)).reverse).map fun n => [Nat.digitChar n]))
      ++ ".ip6.arpa."

/-- A CIDR block rendered with its address normalized down to the
significant prefix: octets or nibbles beyond the prefix are replaced by
zeros, then the canonical textual form and the prefix length are joined
with a slash. -/
def normalizeCIDR : IPAddr → Nat → String
  | .v4 os, p =>
    String.mk (dotJoin ((os.take (p / 8) ++ List.replicate (4 - p / 8) 0).map natChars))
      ++ "/" ++ natStr p
  | .v6 ns, p =>
    renderV6 (ns.take (p / 4) ++ List.replicate (32 - p / 4) 0) ++ "/" ++ natStr p

/-- Legality of a prefix length for the address family (spec section 3):
octet boundaries 8/16/24 for IPv4, nibble boundaries 4..124 for IPv6. -/
def prefixLegal : IPAddr → Nat → Prop
  | .v4 _, p => p = 8 ∨ p = 16 ∨ p = 24
  | .v6 _, p => p % 4 = 0 ∧ 4 ≤ p ∧ p ≤ 124

/-- Strips `sfx` from the end of `cs` when it is a suffix; models the
`strings.HasSuffix` test plus `strings.TrimSuffix`. -/
def stripSuffix (cs sfx : List Char) : Option (List Char) :=
  if cs.drop (cs.length - sfx.length) = sfx then some (cs.take (cs.length - sfx.length))
  else none

/-- The IPv4 reverse-zone suffix. -/
def inAddrArpa : List Char :=
  ".in-addr.arpa.".toList

/-- The IPv6 reverse-zone suffix. -/
def ip6Arpa : List Char :=
  ".ip6.arpa.".toList

/-- The dynamically typed argument of `ValidateCIDR` (Go `interface`
values as the schema layer passes them). -/
inductive GoValue where
  | str (s : String)
  | int (n : Int)
  | bool (b : Bool)
deriving DecidableEq

/-- Go type name of a `GoValue`, as `%T` formats it. -/
def goTypeName : GoValue → String
  | .str _ => "string"
  | .int _ => "int"
  | .bool _ => "bool"

/-- Modelled from the spec (section 4.1; the defining Go file is absent from
the sources): the CIDR validator.  Returns `(warnings, errors)`; a non-string
value fails with a type-mismatch error naming the actual type, an unparseable
string fails with an invalid-CIDR-format error, and a parsed address fails
unless its prefix length is family-legal. -/
def ValidateCIDR (value : GoValue) (k : String) : List String × List String :=
  match value with
  | .str s =>
    match parseCIDR s with
    | some (.v4 _, p) =>
      if p = 8 ∨ p = 16 ∨ p = 24 then ([], [])
      else ([], ["IPv4 prefix length must be 8, 16, or 24, got /" ++ natStr p])
    | some (.v6 _, p) =>
      if p % 4 = 0 ∧ 4 ≤ p ∧ p ≤ 124 then ([], [])
      else ([], ["IPv6 prefix length must be a multiple of 4 between 4 and 124, got /" ++ natStr p])
    | none => ([], ["invalid CIDR format: " ++ s])
  | v => ([], ["expected string, got " ++ goTypeName v ++ " for " ++ k])

/-- Modelled from the spec (section 4.2; the defining Go file is absent from
the sources): CIDR block to reverse zone name.  IPv4: first `p/8` octets,
reversed, dot-joined, plus `.in-addr.arpa.`; IPv6: first `p/4` nibbles,
reversed, dot-joined, plus `.ip6.arpa.`. -/
def GetReverseZoneName (cidr : String) : Except String String :=
  match parseCIDR cidr with
  | some (.v4 os, p) =>
    if p = 8 ∨ p = 16 ∨ p = 24 then
      .ok (String.mk (dotJoin (((os.take (p / 8)).reverse).map natChars)) ++ ".in-addr.arpa.")
    else .error "unsupported IPv4 prefix length: must be 8, 16, or 24"
  | some (.v6 ns, p) =>
    if p % 4 = 0 ∧ 4 ≤ p ∧ p ≤ 124 then
      .ok (String.mk (dotJoin (((ns.take (p / 4)).reverse).map fun n => [Nat.digitChar n]))
        ++ ".ip6.arpa.")
    else .error "unsupported IPv6 prefix length: must be a multiple of 4 between 4 and 124"
  | none => .error ("invalid CIDR format: " ++ cidr)

/-- Modelled from the spec (section 4.2; the defining Go file is absent from
the sources): reverse zone name back to CIDR.  Strips the arpa suffix,
reverses the labels, right-pads with zero octets/nibbles and derives the
prefix length from the label count; 1-3 labels for IPv4, single-hex-digit
labels for IPv6, anything else unsupported. -/
def ParseReverseZoneName (zoneName : String) : Except String String :=
  match stripSuffix zoneName.toList inAddrArpa with
  | some base =>
    let labels := base.splitOn '.'
    if labels.length = 1 ∨ labels.length = 2 ∨ labels.length = 3 then
      .ok (String.mk (dotJoin (labels.reverse ++ List.replicate (4 - labels.length) ['0']))
        ++ "/" ++ natStr (labels.length * 8))
    else .error "invalid IPv4 reverse zone name: expected 1 to 3 octet labels"
  | none =>
    match stripSuffix zoneName.toList ip6Arpa with
    | some base =>
      let labels := base.splitOn '.'
      match labels.mapM singleHexVal with
      | some nibs =>
        .ok (renderV6 (nibs.reverse ++ List.replicate (32 - nibs.length) 0)
          ++ "/" ++ natStr (nibs.length * 4))
      | none => .error "invalid nibble in IPv6 reverse zone name"
    | none => .error "unsupported reverse zone name format"

/-- Modelled from the spec (section 4.3; the defining Go file is absent from
the sources): IP address to PTR owner labels.  IPv4: the four octets
reversed and dot-joined, with no arpa suffix; IPv6: the 32 nibbles reversed
and dot-joined; unparseable input is an invalid-IP error. -/
def GetPTRRecordName (ipAddress : String) : Except String String :=
  match parseIP ipAddress with
  | some (.v4 os) => .ok (String.mk (dotJoin ((os.reverse).map natChars)))
  | some (.v6 ns) => .ok (String.mk (dotJoin ((ns.reverse).map fun n => [Nat.digitChar n])))
  | none => .error ("invalid IP address: " ++ ipAddress)

/-- Modelled from the spec (sections 4.3 and 7; the defining Go file is
absent from the sources): PTR owner name back to an IP address, returned in
its textual form.  The IPv4 branch requires exactly 4 labels and rebuilds the
dotted quad; the IPv6 branch requires exactly 32 labels, each a single hex
nibble (spec section 7, `InvalidNibble`), and rebuilds the canonical hex
address; any other suffix is unsupported. -/
def ParsePTRRecordName (name : String) : Except String String :=
  match stripSuffix name.toList inAddrArpa with
  | some base =>
    let labels := base.splitOn '.'
    if labels.length = 4 then .ok (String.mk (dotJoin labels.reverse))
    else .error "invalid IPv4 PTR record name: expected 4 octet labels"
  | none =>
    match stripSuffix name.toList ip6Arpa with
    | some base =>
      let labels := base.splitOn '.'
      if labels.length = 32 then
        match labels.mapM singleHexVal with
        | some nibs => .ok (renderV6 nibs.reverse)
        | none => .error "invalid nibble in IPv6 PTR record name"
      else .error "invalid IPv6 PTR record name: expected 32 nibble labels"
    | none => .error "unsupported PTR record name format"

/-- The record-ID separator of `client.go`. -/
def idSeparator : String :=
  ":::"

/-- The identifying fields of a `Record` of `client.go`. -/
structure Record where
  name : String
  rtype : String
deriving DecidableEq

/-- Embedded from `client.go`: `ID` returns a record with the ID format. -/
def Record.ID (record : Record) : String :=
  record.name ++ idSeparator ++ record.rtype

/-- The identifying fields of a `ResourceRecordSet` of `client.go`. -/
structure ResourceRecordSet where
  name : String
  rtype : String
deriving DecidableEq

/-- Embedded from `client.go`: `ID` returns a rrSet with the ID format. -/
def ResourceRecordSet.ID (rrSet : ResourceRecordSet) : String :=
  rrSet.name ++ idSeparator ++ rrSet.rtype

/-- Embedded from `client.go`: name and type of a record or record set from
its ID - split on the separator and require exactly two parts. -/
def parseID (recID : String) : Except String (String × String) :=
  match (splitOnSub idSeparator.toList recID.toList).map String.mk with
  | [a, b] => .ok (a, b)
  | _ => .error "unknown record ID format"

/-- Embedded from `client.go` (PTR resource handlers): the arpa suffix is
`.in-addr.arpa.` unless `net.ParseIP(ipAddress).To4()` is nil, in which case
it is `.ip6.arpa.`. -/
def goSuffixForIP (ipAddress : String) : String :=
  match parseIP ipAddress with
  | some (.v4 _) => ".in-addr.arpa."
  | _ => ".ip6.arpa."

/-- Embedded from `client.go` `PTRRecordResource.Create`: the owner name sent
to the server, or the wrapped error when the PTR name cannot be derived. -/
def ptrCreateOwnerName (ipAddress : String) : Except String String :=
  match GetPTRRecordName ipAddress with
  | .ok ptrName => .ok (ptrName ++ goSuffixForIP ipAddress)
  | .error e => .error ("failed to determine PTR record name: " ++ e)

/-- Embedded from `client.go` `PTRRecordResource.Read`: the owner name used
to list the record set, or the wrapped error. -/
def ptrReadOwnerName (ipAddress : String) : Except String String :=
  match GetPTRRecordName ipAddress with
  | .ok ptrName => .ok (ptrName ++ goSuffixForIP ipAddress)
  | .error e => .error ("failed to determine PTR record name: " ++ e)

/-- Embedded from `client.go` `PTRRecordResource.Update`: the owner name used
to re-read the record set, or the wrapped error. -/
def ptrUpdateOwnerName (ipAddress : String) : Except String String :=
  match GetPTRRecordName ipAddress with
  | .ok ptrName => .ok (ptrName ++ goSuffixForIP ipAddress)
  | .error e => .error ("failed to determine PTR record name: " ++ e)

/-- Embedded from `client.go` `PTRRecordResource.Delete`: the owner name whose
record set is deleted, or the wrapped error. -/
def ptrDeleteOwnerName (ipAddress : String) : Except String String :=
  match GetPTRRecordName ipAddress with
  | .ok ptrName => .ok (ptrName ++ goSuffixForIP ipAddress)
  | .error e => .error ("failed to determine PTR record name: " ++ e)

/-! ### Basic string and suffix lemmas -/

theorem toList_mk (l : List Char) : (String.mk l).toList = l :=
  rfl

theorem toList_append (s t : String) : (s ++ t).toList = s.toList ++ t.toList :=
  rfl

theorem inAddrArpa_length : inAddrArpa.length = 14 :=
  rfl

theorem ip6Arpa_length : ip6Arpa.length = 10 :=
  rfl

theorem stripSuffix_append (b sfx : List Char) : stripSuffix (b ++ sfx) sfx = some b := by
  unfold stripSuffix
  have h1 : (b ++ sfx).length - sfx.length = b.length := by
    rw [List.length_append]; omega
  rw [h1, List.drop_left, List.take_left]
  simp

theorem stripSuffix_eq_some {cs sfx b : List Char} (h : stripSuffix cs sfx = some b) :
    cs = b ++ sfx := by
  unfold stripSuffix at h
  split at h
  · rename_i hc
    injection h with h'
    subst h'
    conv_lhs => rw [← List.take_append_drop (cs.length - sfx.length) cs]
    rw [hc]
  · exact absurd h (by simp)

theorem stripSuffix_inAddr_of_ip6 (b : List Char) :
    stripSuffix (b ++ ip6Arpa) inAddrArpa = none := by
  unfold stripSuffix
  rw [if_neg]
  intro h
  by_cases hb : 4 ≤ b.length
  · have hlen : (b ++ ip6Arpa).length - inAddrArpa.length = b.length - 4 := by
      rw [List.length_append, ip6Arpa_length, inAddrArpa_length]; omega
    rw [hlen, List.drop_append_eq_append_drop] at h
    have h0 : b.length - 4 - b.length = 0 := by omega
    rw [h0, List.drop_zero] at h
    have hx : (b.drop (b.length - 4)).length = 4 := by
      rw [List.length_drop]; omega
    have h4 := congrArg (List.drop 4) h
    rw [List.drop_left' hx] at h4
    exact absurd h4 (by decide)
  · have hlen : (b ++ ip6Arpa).length - inAddrArpa.length = 0 := by
      rw [List.length_append, ip6Arpa_length, inAddrArpa_length]; omega
    rw [hlen, List.drop_zero] at h
    have hl := congrArg List.length h
    rw [List.length_append, ip6Arpa_length, inAddrArpa_length] at hl
    omega

theorem stripSuffix_ip6_of_inAddr (b : List Char) :
    stripSuffix (b ++ inAddrArpa) ip6Arpa = none := by
  unfold stripSuffix
  rw [if_neg]
  intro h
  have hlen : (b ++ inAddrArpa).length - ip6Arpa.length = b.length + 4 := by
    rw [List.length_append, ip6Arpa_length, inAddrArpa_length]; omega
  rw [hlen, List.drop_append_eq_append_drop] at h
  have h1 : b.drop (b.length + 4) = [] := List.drop_eq_nil_of_le (by omega)
  have h2 : b.length + 4 - b.length = 4 := by omega
  rw [h1, h2, List.nil_append] at h
  exact absurd h (by decide)

theorem not_both_arpa {l : List Char} (h4 : inAddrArpa <:+ l) (h6 : ip6Arpa <:+ l) :
    False := by
  have hlen : 14 ≤ l.length := by
    have := h4.length_le
    rw [inAddrArpa_length] at this
    exact this
  rw [List.suffix_iff_eq_drop, inAddrArpa_length] at h4
  rw [List.suffix_iff_eq_drop, ip6Arpa_length] at h6
  have e : ip6Arpa = inAddrArpa.drop 4 := by
    calc ip6Arpa = l.drop (l.length - 10) := h6
      _ = (l.drop (l.length - 14)).drop 4 := by rw [List.drop_drop]; congr 1; omega
      _ = inAddrArpa.drop 4 := by rw [← h4]
  exact absurd e (by decide)

/-! ### Digit and nibble character lemmas -/

theorem digitChar_isDigit (k : Nat) (h : k < 10) : (Nat.digitChar k).isDigit = true := by
  interval_cases k <;> decide

theorem natCharsAux_isDigit : ∀ f n : Nat, ∀ c ∈ natCharsAux f n, c.isDigit = true := by
  intro f
  induction f with
  | zero => intro n c hc; simp [natCharsAux] at hc
  | succ f ih =>
    intro n c hc
    rw [natCharsAux] at hc
    split at hc
    · rename_i hn
      rw [List.mem_singleton] at hc
      subst hc
      exact digitChar_isDigit n hn
    · rw [List.mem_append] at hc
      rcases hc with hc | hc
      · exact ih _ c hc
      · rw [List.mem_singleton] at hc
        subst hc
        exact digitChar_isDigit _ (Nat.mod_lt _ (by omega))

theorem natChars_isDigit (n : Nat) : ∀ c ∈ natChars n, c.isDigit = true :=
  natCharsAux_isDigit (n + 1) n

theorem dot_not_mem_natChars (n : Nat) : '.' ∉ natChars n := fun h =>
  absurd (natChars_isDigit n '.' h) (by decide)

theorem natChars_ne_nil (n : Nat) : natChars n ≠ [] := by
  unfold natChars natCharsAux
  split
  · simp
  · simp

theorem natChars_zero : natChars 0 = ['0'] :=
  rfl

theorem hexVal_digitChar (n : Nat) (h : n < 16) : hexVal (Nat.digitChar n) = some n := by
  interval_cases n <;> decide

theorem singleHexVal_digitChar (n : Nat) (h : n < 16) :
    singleHexVal [Nat.digitChar n] = some n := by
  rw [singleHexVal, hexVal_digitChar n h]

theorem digitChar_ne_dot (n : Nat) (h : n < 16) : Nat.digitChar n ≠ '.' := by
  interval_cases n <;> decide

/-! ### Splitting and joining labels -/

theorem splitOn_dotJoin (ls : List (List Char)) (h : ∀ l ∈ ls, '.' ∉ l) (h0 : ls ≠ []) :
    (dotJoin ls).splitOn '.' = ls := by
  unfold dotJoin
  exact List.splitOn_intercalate ls '.' h h0

theorem mapM_singleHexVal (l : List Nat) (h : ∀ n ∈ l, n < 16) :
    (l.map fun n => [Nat.digitChar n]).mapM singleHexVal = some l := by
  induction l with
  | nil => rfl
  | cons a t ih =>
    rw [List.map_cons, List.mapM_cons, singleHexVal_digitChar a (h a (by simp)),
      ih (fun n hn => h n (by simp [hn]))]
    rfl

theorem mapM_option_eq_none {α β : Type} (f : α → Option β) (l : List α) :
    l.mapM f = none ↔ ∃ a ∈ l, f a = none := by
  induction l with
  | nil => rw [List.mapM_nil]; simp
  | cons a t ih =>
    rw [List.mapM_cons]
    cases hfa : f a with
    | none =>
      constructor
      · intro _
        exact ⟨a, List.mem_cons_self a t, hfa⟩
      · intro _
        rfl
    | some b =>
      cases hmt : t.mapM f with
      | none =>
        constructor
        · intro _
          obtain ⟨x, hx, hfx⟩ := ih.mp hmt
          exact ⟨x, List.mem_cons_of_mem a hx, hfx⟩
        · intro _
          rfl
      | some bs =>
        constructor
        · intro hcontra
          exact absurd hcontra (by simp)
        · rintro ⟨x, hx, hfx⟩
          rcases List.mem_cons.mp hx with rfl | hx'
          · rw [hfa] at hfx
            exact absurd hfx (by simp)
          · have hn := ih.mpr ⟨x, hx', hfx⟩
            rw [hmt] at hn
            exact absurd hn (by simp)

/-! ### Lemmas about the Go-style splitter -/

theorem splitOnSubFuel_ne_nil (a : Char) (ss : List Char) :
    ∀ fuel cs, splitOnSubFuel a ss fuel cs ≠ [] := by
  intro fuel
  induction fuel with
  | zero => intro cs; cases cs <;> simp [splitOnSubFuel]
  | succ f ih =>
    intro cs
    cases cs with
    | nil => simp [splitOnSubFuel]
    | cons c rest =>
      rw [splitOnSubFuel]
      split
      · simp
      · split
        · simp
        · simp

theorem splitOnSubFuel_irrel (a : Char) (ss : List Char) :
    ∀ f₁ f₂ cs, cs.length ≤ f₁ → cs.length ≤ f₂ →
      splitOnSubFuel a ss f₁ cs = splitOnSubFuel a ss f₂ cs := by
  intro f₁
  induction f₁ with
  | zero =>
    intro f₂ cs h1 _
    have hnil : cs = [] := List.eq_nil_of_length_eq_zero (by omega)
    subst hnil
    cases f₂ <;> rfl
  | succ f ih =>
    intro f₂ cs h1 h2
    cases cs with
    | nil => cases f₂ <;> rfl
    | cons c rest =>
      cases f₂ with
      | zero => simp at h2
      | succ g =>
        rw [splitOnSubFuel, splitOnSubFuel]
        have hr : rest.length ≤ f := by simp at h1; omega
        have hg : rest.length ≤ g := by simp at h2; omega
        split
        · rw [ih g (rest.drop ss.length) (by rw [List.length_drop]; omega)
            (by rw [List.length_drop]; omega)]
        · rw [ih g rest hr hg]

theorem splitOnSubNE_ne_nil (a : Char) (ss cs : List Char) : splitOnSubNE a ss cs ≠ [] :=
  splitOnSubFuel_ne_nil a ss cs.length cs

theorem splitOnSubNE_cons (a : Char) (ss : List Char) (c : Char) (rest : List Char) :
    splitOnSubNE a ss (c :: rest) =
      if a = c ∧ ss <+: rest then
        [] :: splitOnSubNE a ss (rest.drop ss.length)
      else
        match splitOnSubNE a ss rest with
        | [] => [[c]]
        | y :: ys => (c :: y) :: ys := by
  unfold splitOnSubNE
  rw [show (c :: rest).length = rest.length + 1 from rfl, splitOnSubFuel]
  split
  · rw [splitOnSubFuel_irrel a ss rest.length (rest.drop ss.length).length (rest.drop ss.length)
      (by rw [List.length_drop]; omega) le_rfl]
  · rfl

theorem splitOnSubNE_append (a : Char) (ss : List Char) (x r : List Char)
    (h : ∀ x', x' ≠ [] → x' <:+ x → ¬ ((a :: ss) <+: (x' ++ r))) :
    ∃ y ys, splitOnSubNE a ss r = y :: ys ∧
      splitOnSubNE a ss (x ++ r) = (x ++ y) :: ys := by
  induction x with
  | nil =>
    obtain ⟨y, ys, hys⟩ : ∃ y ys, splitOnSubNE a ss r = y :: ys := by
      cases hr : splitOnSubNE a ss r with
      | nil => exact absurd hr (splitOnSubNE_ne_nil a ss r)
      | cons y ys => exact ⟨y, ys, rfl⟩
    exact ⟨y, ys, hys, by simp [hys]⟩
  | cons c x ih =>
    have hc : ¬ (a = c ∧ ss <+: x ++ r) := by
      rintro ⟨ha, hss⟩
      exact h (c :: x) (by simp) (List.suffix_refl _)
        (List.cons_prefix_cons.mpr ⟨ha, hss⟩)
    obtain ⟨y, ys, h1, h2⟩ :=
      ih (fun x' hne hsfx hpre => h x' hne (hsfx.trans (List.suffix_cons c x)) hpre)
    refine ⟨y, ys, h1, ?_⟩
    rw [List.cons_append, splitOnSubNE_cons, if_neg hc, h2]
    rfl

theorem splitOnSubNE_sep (a : Char) (ss t : List Char) :
    splitOnSubNE a ss (a :: (ss ++ t)) = [] :: splitOnSubNE a ss t := by
  rw [splitOnSubNE_cons, if_pos ⟨rfl, List.prefix_append ss t⟩, List.drop_left]

theorem splitOnSubNE_single (a : Char) (ss : List Char) (t : List Char)
    (h : ∀ t', t' ≠ [] → t' <:+ t → ¬ ((a :: ss) <+: t')) :
    splitOnSubNE a ss t = [t] := by
  induction t with
  | nil => rfl
  | cons c rest ih =>
    have hc : ¬ (a = c ∧ ss <+: rest) := by
      rintro ⟨ha, hss⟩
      exact h (c :: rest) (by simp) (List.suffix_refl _)
        (List.cons_prefix_cons.mpr ⟨ha, hss⟩)
    rw [splitOnSubNE_cons, if_neg hc,
      ih (fun t' hne hsfx => h t' hne (hsfx.trans (List.suffix_cons c rest)))]

theorem colonSep_no_match_through (nm r : List Char)
    (h3 : ¬ ([':', ':', ':'] <:+: nm)) (hlast : nm.getLast? ≠ some ':') :
    ∀ x', x' ≠ [] → x' <:+ nm → ¬ ((':' :: [':', ':']) <+: (x' ++ r)) := by
  intro x' hne hsfx hpre
  cases x' with
  | nil => exact hne rfl
  | cons c1 t1 =>
    rw [List.cons_append, List.cons_prefix_cons] at hpre
    obtain ⟨hc1, hpre1⟩ := hpre
    subst hc1
    cases t1 with
    | nil =>
      apply hlast
      obtain ⟨pre, hp⟩ := hsfx
      rw [← hp]
      exact List.getLast?_concat _
    | cons c2 t2 =>
      rw [List.cons_append, List.cons_prefix_cons] at hpre1
      obtain ⟨hc2, hpre2⟩ := hpre1
      subst hc2
      cases t2 with
      | nil =>
        apply hlast
        obtain ⟨pre, hp⟩ := hsfx
        rw [← hp, show pre ++ [':', ':'] = (pre ++ [':']) ++ [':'] by simp]
        exact List.getLast?_concat _
      | cons c3 t3 =>
        rw [List.cons_append, List.cons_prefix_cons] at hpre2
        obtain ⟨hc3, _⟩ := hpre2
        subst hc3
        apply h3
        obtain ⟨pre, hp⟩ := hsfx
        exact ⟨pre, t3, by rw [← hp]; simp⟩

theorem colonSep_no_match_within (ty : List Char) (h3 : ¬ ([':', ':', ':'] <:+: ty)) :
    ∀ t', t' ≠ [] → t' <:+ ty → ¬ ((':' :: [':', ':']) <+: t') := by
  intro t' _ hsfx hpre
  apply h3
  obtain ⟨s, hs⟩ := hpre
  obtain ⟨pre, hp⟩ := hsfx
  exact ⟨pre, s, by rw [← hp, ← hs, List.append_assoc]⟩

theorem splitOnSub_idSep (nm ty : List Char)
    (h3 : ¬ ([':', ':', ':'] <:+: nm)) (hlast : nm.getLast? ≠ some ':')
    (ht : ¬ ([':', ':', ':'] <:+: ty)) :
    splitOnSub [':', ':', ':'] (nm ++ [':', ':', ':'] ++ ty) = [nm, ty] := by
  show splitOnSubNE ':' [':', ':'] (nm ++ [':', ':', ':'] ++ ty) = [nm, ty]
  have hty : splitOnSubNE ':' [':', ':'] ty = [ty] :=
    splitOnSubNE_single _ _ _ (colonSep_no_match_within ty ht)
  have hstep : splitOnSubNE ':' [':', ':'] ([':', ':', ':'] ++ ty) =
      [] :: splitOnSubNE ':' [':', ':'] ty :=
    splitOnSubNE_sep ':' [':', ':'] ty
  obtain ⟨y, ys, h1, h2⟩ := splitOnSubNE_append ':' [':', ':'] nm ([':', ':', ':'] ++ ty)
    (colonSep_no_match_through nm _ h3 hlast)
  rw [hstep, hty] at h1
  injection h1 with hy hys
  subst hy
  subst hys
  rw [List.append_assoc, h2]
  simp

/-! ### Validity of parsed addresses -/

theorem parseIPchars_v4 {cs : List Char} {os : List Nat}
    (h : parseIPchars cs = some (.v4 os)) : os.length = 4 ∧ ∀ o ∈ os, o < 256 := by
  unfold parseIPchars at h
  split at h
  · split at h
    · rename_i hP
      injection h with h'
      injection h' with h2
      subst h2
      exact hP
    · exact absurd h (by simp)
  · split at h
    · split at h
      · split at h
        · split at h
          · rename_i hP
            injection h with h'
            injection h' with h2
            subst h2
            exact hP
          · exact absurd h (by simp)
        · injection h with h'
          exact absurd h' (by simp)
      · exact absurd h (by simp)
    · exact absurd h (by simp)

theorem parseIPchars_v6 {cs : List Char} {ns : List Nat}
    (h : parseIPchars cs = some (.v6 ns)) : ns.length = 32 ∧ ∀ n ∈ ns, n < 16 := by
  unfold parseIPchars at h
  split at h
  · split at h
    · injection h with h'
      exact absurd h' (by simp)
    · exact absurd h (by simp)
  · split at h
    · split at h
      · split at h
        · split at h
          · injection h with h'
            exact absurd h' (by simp)
          · exact absurd h (by simp)
        · injection h with h'
          injection h' with h2
          subst h2
          assumption
      · exact absurd h (by simp)
    · exact absurd h (by simp)

theorem parseCIDR_parseIPchars {s : String} {ip : IPAddr} {p : Nat}
    (h : parseCIDR s = some (ip, p)) :
    ∃ a m, s.toList.splitOn '/' = [a, m] ∧ parseIPchars a = some ip ∧
      parseDecimal m = some p := by
  unfold parseCIDR at h
  split at h
  case h_2 => exact absurd h (by simp)
  case h_1 a m heq =>
    refine ⟨a, m, heq, ?_⟩
    cases hd : parseDecimal m with
    | none =>
      rw [hd] at h
      replace h : (none : Option (IPAddr × Nat)) = some (ip, p) := h
      exact absurd h (by simp)
    | some q =>
      cases hip : parseIPchars a with
      | none =>
        rw [hd, hip] at h
        replace h : (none : Option (IPAddr × Nat)) = some (ip, p) := h
        exact absurd h (by simp)
      | some ipv =>
        cases ipv with
        | v4 os =>
          rw [hd, hip] at h
          replace h : (if q ≤ 32 then some (IPAddr.v4 os, q) else none) =
              some (ip, p) := h
          split at h
          · injection h with h'
            injection h' with h1 h2
            exact ⟨by rw [h1], by rw [h2]⟩
          · exact absurd h (by simp)
        | v6 ns =>
          rw [hd, hip] at h
          replace h : (if q ≤ 128 then some (IPAddr.v6 ns, q) else none) =
              some (ip, p) := h
          split at h
          · injection h with h'
            injection h' with h1 h2
            exact ⟨by rw [h1], by rw [h2]⟩
          · exact absurd h (by simp)

/-! ### Parsing the constructed reverse-zone and PTR names -/

theorem dot_not_mem_nibble_labels (l : List Nat) (h16 : ∀ n ∈ l, n < 16) :
    ∀ lb ∈ l.map fun n => [Nat.digitChar n], '.' ∉ lb := by
  intro lb hlb
  obtain ⟨n, hn, rfl⟩ := List.mem_map.mp hlb
  intro hc
  rw [List.mem_singleton] at hc
  exact digitChar_ne_dot n (h16 n hn) hc.symm

theorem ParseReverseZoneName_v4_labels (ls : List (List Char))
    (hdot : ∀ lb ∈ ls, '.' ∉ lb) (hne : ls ≠ []) (hlen : ls.length ≤ 3) :
    ParseReverseZoneName (String.mk (dotJoin ls) ++ ".in-addr.arpa.") =
      .ok (String.mk (dotJoin (ls.reverse ++ List.replicate (4 - ls.length) ['0']))
        ++ "/" ++ natStr (ls.length * 8)) := by
  unfold ParseReverseZoneName
  have htl : (String.mk (dotJoin ls) ++ ".in-addr.arpa.").toList =
      dotJoin ls ++ inAddrArpa := rfl
  rw [htl]
  simp only [stripSuffix_append]
  rw [splitOn_dotJoin ls hdot hne]
  have h1 : ls.length = 1 ∨ ls.length = 2 ∨ ls.length = 3 := by
    have := List.length_pos.mpr hne
    omega
  rw [if_pos h1]

theorem ParseReverseZoneName_v6_labels (l : List Nat)
    (h16 : ∀ n ∈ l, n < 16) (hne : l ≠ []) :
    ParseReverseZoneName
        (String.mk (dotJoin (l.map fun n => [Nat.digitChar n])) ++ ".ip6.arpa.") =
      .ok (renderV6 (l.reverse ++ List.replicate (32 - l.length) 0)
        ++ "/" ++ natStr (l.length * 4)) := by
  unfold ParseReverseZoneName
  have htl : (String.mk (dotJoin (l.map fun n => [Nat.digitChar n])) ++ ".ip6.arpa.").toList =
      dotJoin (l.map fun n => [Nat.digitChar n]) ++ ip6Arpa := rfl
  rw [htl]
  rw [stripSuffix_inAddr_of_ip6]
  simp only [stripSuffix_append]
  rw [splitOn_dotJoin _ (dot_not_mem_nibble_labels l h16) (by simp [hne])]
  rw [mapM_singleHexVal l h16]

theorem ParsePTRRecordName_v4_labels (ls : List (List Char))
    (hdot : ∀ lb ∈ ls, '.' ∉ lb) (hne : ls ≠ []) (hlen : ls.length = 4) :
    ParsePTRRecordName (String.mk (dotJoin ls) ++ ".in-addr.arpa.") =
      .ok (String.mk (dotJoin ls.reverse)) := by
  unfold ParsePTRRecordName
  have htl : (String.mk (dotJoin ls) ++ ".in-addr.arpa.").toList =
      dotJoin ls ++ inAddrArpa := rfl
  rw [htl]
  simp only [stripSuffix_append]
  rw [splitOn_dotJoin ls hdot hne, if_pos hlen]

theorem ParsePTRRecordName_v6_labels (l : List Nat)
    (h16 : ∀ n ∈ l, n < 16) (hlen : l.length = 32) :
    ParsePTRRecordName
        (String.mk (dotJoin (l.map fun n => [Nat.digitChar n])) ++ ".ip6.arpa.") =
      .ok (renderV6 l.reverse) := by
  unfold ParsePTRRecordName
  have hne : l ≠ [] := by
    intro hl
    rw [hl] at hlen
    simp at hlen
  have htl : (String.mk (dotJoin (l.map fun n => [Nat.digitChar n])) ++ ".ip6.arpa.").toList =
      dotJoin (l.map fun n => [Nat.digitChar n]) ++ ip6Arpa := rfl
  rw [htl]
  rw [stripSuffix_inAddr_of_ip6]
  simp only [stripSuffix_append]
  rw [splitOn_dotJoin _ (dot_not_mem_nibble_labels l h16) (by simp [hne])]
  rw [List.length_map, if_pos hlen]
  rw [mapM_singleHexVal l h16]

/-! ### Octet label facts -/

theorem dot_not_mem_octet_labels (os : List Nat) : ∀ lb ∈ os.map natChars, '.' ∉ lb := by
  intro lb hlb
  obtain ⟨o, _, rfl⟩ := List.mem_map.mp hlb
  exact dot_not_mem_natChars o

/-! ### Claim theorems -/

/-- C3: for every IPv4 CIDR string with prefix length 8, 16 or 24,
`GetReverseZoneName` succeeds and returns the first `p/8` octets of the
dotted address in reversed order, joined with dots, with `.in-addr.arpa.`
appended. -/
theorem claim3_GetReverseZoneName_v4 (s : String) (os : List Nat) (p : Nat)
    (hparse : parseCIDR s = some (.v4 os, p)) (hp : p = 8 ∨ p = 16 ∨ p = 24) :
    GetReverseZoneName s =
      .ok (String.mk (dotJoin (((os.take (p / 8)).reverse).map natChars))
        ++ ".in-addr.arpa.") := by
  unfold GetReverseZoneName
  simp only [hparse]
  rw [if_pos hp]

/-- Instantiation of C3 at the three dotted-quad examples of the spec. -/
theorem claim3_GetReverseZoneName_v4_witness :
    parseCIDR "192.168.1.0/24" = some (.v4 [192, 168, 1, 0], 24) ∧
    GetReverseZoneName "192.168.1.0/24" = .ok "1.168.192.in-addr.arpa." ∧
    GetReverseZoneName "10.0.0.0/8" = .ok "10.in-addr.arpa." ∧
    GetReverseZoneName "172.16.0.0/16" = .ok "16.172.in-addr.arpa." := by
  refine ⟨by decide, ?_, ?_, ?_⟩
  · rw [claim3_GetReverseZoneName_v4 "192.168.1.0/24" [192, 168, 1, 0] 24 (by decide)
      (by decide)]
    rfl
  · rw [claim3_GetReverseZoneName_v4 "10.0.0.0/8" [10, 0, 0, 0] 8 (by decide) (by decide)]
    rfl
  · rw [claim3_GetReverseZoneName_v4 "172.16.0.0/16" [172, 16, 0, 0] 16 (by decide)
      (by decide)]
    rfl

/-- C4: for every IPv6 CIDR string with prefix length a multiple of 4 in
`[4, 124]`, `GetReverseZoneName` succeeds and returns the first `p/4`
nibbles of the expanded address in reversed order, joined with dots, with
`.ip6.arpa.` appended. -/
theorem claim4_GetReverseZoneName_v6 (s : String) (ns : List Nat) (p : Nat)
    (hparse : parseCIDR s = some (.v6 ns, p)) (hp : p % 4 = 0 ∧ 4 ≤ p ∧ p ≤ 124) :
    GetReverseZoneName s =
      .ok (String.mk (dotJoin (((ns.take (p / 4)).reverse).map fun n => [Nat.digitChar n]))
        ++ ".ip6.arpa.") := by
  unfold GetReverseZoneName
  simp only [hparse]
  rw [if_pos hp]

/-- Instantiation of C4 at the spec's example `2000::/4`. -/
theorem claim4_GetReverseZoneName_v6_witness :
    parseCIDR "2000::/4" =
      some (.v6 ([2] ++ List.replicate 31 0), 4) ∧
    GetReverseZoneName "2000::/4" = .ok "2.ip6.arpa." := by
  refine ⟨by decide, ?_⟩
  rw [claim4_GetReverseZoneName_v6 "2000::/4" ([2] ++ List.replicate 31 0) 4 (by decide)
    (by decide)]
  rfl

/-- C5: `GetPTRRecordName` reverses the four octets of a parsed IPv4
address and joins them with dots (no arpa suffix), reverses the 32 nibbles
of a parsed IPv6 address likewise, and reports an invalid-IP error on an
unparseable address string. -/
theorem claim5_GetPTRRecordName_spec (s : String) :
    (∀ os, parseIP s = some (.v4 os) →
      GetPTRRecordName s = .ok (String.mk (dotJoin ((os.reverse).map natChars)))) ∧
    (∀ ns, parseIP s = some (.v6 ns) →
      GetPTRRecordName s =
        .ok (String.mk (dotJoin ((ns.reverse).map fun n => [Nat.digitChar n])))) ∧
    (parseIP s = none → GetPTRRecordName s = .error ("invalid IP address: " ++ s)) := by
  refine ⟨?_, ?_, ?_⟩
  · intro os h
    unfold GetPTRRecordName
    simp only [h]
  · intro ns h
    unfold GetPTRRecordName
    simp only [h]
  · intro h
    unfold GetPTRRecordName
    simp only [h]

set_option maxRecDepth 8192 in
/-- Instantiation of C5 at the spec's examples. -/
theorem claim5_GetPTRRecordName_spec_witness :
    parseIP "192.168.1.10" = some (.v4 [192, 168, 1, 10]) ∧
    GetPTRRecordName "192.168.1.10" = .ok "10.1.168.192" ∧
    parseIP "invalid" = none ∧
    GetPTRRecordName "invalid" = .error "invalid IP address: invalid" ∧
    GetPTRRecordName "2001:db8::1" =
      .ok "1.0.0.0.0.0.0.0.0.0.0.0.0.0.0.0.0.0.0.0.0.0.0.0.8.b.d.0.1.0.0.2" := by
  refine ⟨by decide, ?_, by decide, ?_, ?_⟩
  · rw [(claim5_GetPTRRecordName_spec "192.168.1.10").1 [192, 168, 1, 10] (by decide)]
    rfl
  · exact (claim5_GetPTRRecordName_spec "invalid").2.2 (by decide)
  · rw [(claim5_GetPTRRecordName_spec "2001:db8::1").2.1
      ([2, 0, 0, 1, 0, 13, 11, 8] ++ List.replicate 20 0 ++ [0, 0, 0, 1]) (by decide)]
    rfl

/-- C7: the CIDR validator accepts exactly the strings that parse as a CIDR
block with a family-legal prefix length, and otherwise reports one error:
a type mismatch naming the actual type for non-string input, an
invalid-CIDR-format error for unparseable strings, and prefix-length errors
identifying the allowed IPv4 set or the allowed IPv6 range and step. -/
theorem claim7_ValidateCIDR_spec (v : GoValue) (k : String) :
    (ValidateCIDR v k = ([], []) ↔
      ∃ s ip p, v = .str s ∧ parseCIDR s = some (ip, p) ∧ prefixLegal ip p) ∧
    (∀ n : Int, v = .int n →
      ValidateCIDR v k = ([], ["expected string, got int for " ++ k])) ∧
    (∀ b : Bool, v = .bool b →
      ValidateCIDR v k = ([], ["expected string, got bool for " ++ k])) ∧
    (∀ s, v = .str s → parseCIDR s = none →
      ValidateCIDR v k = ([], ["invalid CIDR format: " ++ s])) ∧
    (∀ s os p, v = .str s → parseCIDR s = some (.v4 os, p) →
      ¬(p = 8 ∨ p = 16 ∨ p = 24) →
      ValidateCIDR v k =
        ([], ["IPv4 prefix length must be 8, 16, or 24, got /" ++ natStr p])) ∧
    (∀ s ns p, v = .str s → parseCIDR s = some (.v6 ns, p) →
      ¬(p % 4 = 0 ∧ 4 ≤ p ∧ p ≤ 124) →
      ValidateCIDR v k =
        ([], ["IPv6 prefix length must be a multiple of 4 between 4 and 124, got /"
          ++ natStr p])) := by
  refine ⟨⟨?_, ?_⟩, ?_, ?_, ?_, ?_, ?_⟩
  · intro h
    cases v with
    | int n => exact absurd h (by simp [ValidateCIDR, goTypeName])
    | bool b => exact absurd h (by simp [ValidateCIDR, goTypeName])
    | str s =>
      unfold ValidateCIDR at h
      split at h
      next s2 heq =>
        injection heq with hss
        subst hss
        split at h
        next os p heq2 =>
          split at h
          next hp => exact ⟨s, .v4 os, p, rfl, heq2, hp⟩
          next hp => simp at h
        next ns p heq2 =>
          split at h
          next hp => exact ⟨s, .v6 ns, p, rfl, heq2, hp⟩
          next hp => simp at h
        next heq2 => simp at h
      next v heq =>
        exact absurd rfl (heq s)
  · rintro ⟨s, ip, p, rfl, hq, hl⟩
    unfold ValidateCIDR
    simp only [hq]
    cases ip with
    | v4 os => exact if_pos hl
    | v6 ns => exact if_pos hl
  · intro n hv
    subst hv
    rfl
  · intro b hv
    subst hv
    rfl
  · intro s hv hq
    subst hv
    unfold ValidateCIDR
    simp only [hq]
  · intro s os p hv hq hp
    subst hv
    unfold ValidateCIDR
    simp only [hq]
    rw [if_neg hp]
  · intro s ns p hv hq hp
    subst hv
    unfold ValidateCIDR
    simp only [hq]
    rw [if_neg hp]

/-- Instantiation of C7 at the test file's representative inputs. -/
theorem claim7_ValidateCIDR_spec_witness :
    ValidateCIDR (.str "10.0.0.0/8") "test" = ([], []) ∧
    ValidateCIDR (.int 123) "test" = ([], ["expected string, got int for test"]) ∧
    ValidateCIDR (.str "invalid") "test" = ([], ["invalid CIDR format: invalid"]) ∧
    ValidateCIDR (.str "192.168.1.1/32") "test" =
      ([], ["IPv4 prefix length must be 8, 16, or 24, got /32"]) ∧
    ValidateCIDR (.str "2000::/3") "test" =
      ([], ["IPv6 prefix length must be a multiple of 4 between 4 and 124, got /3"]) := by
  refine ⟨?_, ?_, ?_, ?_, ?_⟩
  · exact (claim7_ValidateCIDR_spec (.str "10.0.0.0/8") "test").1.mpr
      ⟨"10.0.0.0/8", .v4 [10, 0, 0, 0], 8, rfl, by decide, Or.inl rfl⟩
  · exact (claim7_ValidateCIDR_spec (.int 123) "test").2.1 123 rfl
  · exact (claim7_ValidateCIDR_spec (.str "invalid") "test").2.2.2.1 "invalid" rfl (by decide)
  · exact (claim7_ValidateCIDR_spec (.str "192.168.1.1/32") "test").2.2.2.2.1
      "192.168.1.1/32" [192, 168, 1, 1] 32 rfl (by decide) (by decide)
  · exact (claim7_ValidateCIDR_spec (.str "2000::/3") "test").2.2.2.2.2
      "2000::/3" ([2] ++ List.replicate 31 0) 3 rfl (by decide) (by decide)

/-- C8: `ParseReverseZoneName` errors on an `.in-addr.arpa.` name whose
label count is not 1, 2 or 3, on an `.ip6.arpa.` name one of whose labels
is not a single hex digit, and on a name carrying neither arpa suffix
(unsupported format). -/
theorem claim8_ParseReverseZoneName_errors (s : String) :
    (∀ b, s.toList = b ++ inAddrArpa →
      ¬((b.splitOn '.').length = 1 ∨ (b.splitOn '.').length = 2 ∨
          (b.splitOn '.').length = 3) →
      ∃ e, ParseReverseZoneName s = .error e) ∧
    (∀ b, s.toList = b ++ ip6Arpa →
      (∃ lb ∈ b.splitOn '.', singleHexVal lb = none) →
      ∃ e, ParseReverseZoneName s = .error e) ∧
    (¬ (inAddrArpa <:+ s.toList) → ¬ (ip6Arpa <:+ s.toList) →
      ParseReverseZoneName s = .error "unsupported reverse zone name format") := by
  refine ⟨?_, ?_, ?_⟩
  · intro b hb hcount
    unfold ParseReverseZoneName
    rw [hb]
    simp only [stripSuffix_append]
    rw [if_neg hcount]
    exact ⟨_, rfl⟩
  · intro b hb hbad
    unfold ParseReverseZoneName
    rw [hb]
    rw [stripSuffix_inAddr_of_ip6]
    simp only [stripSuffix_append]
    rw [(mapM_option_eq_none singleHexVal (b.splitOn '.')).mpr hbad]
    exact ⟨_, rfl⟩
  · intro h4 h6
    unfold ParseReverseZoneName
    cases hs4 : stripSuffix s.toList inAddrArpa with
    | some b =>
      exact absurd (stripSuffix_eq_some hs4 ▸ List.suffix_append b inAddrArpa) h4
    | none =>
      cases hs6 : stripSuffix s.toList ip6Arpa with
      | some b =>
        exact absurd (stripSuffix_eq_some hs6 ▸ List.suffix_append b ip6Arpa) h6
      | none => simp only [hs4, hs6]

/-- Instantiation of C8 at the test file's failing inputs: a four-label
IPv4 name, an invalid nibble, and an unsupported suffix. -/
theorem claim8_ParseReverseZoneName_errors_witness :
    ("1.2.3.4.in-addr.arpa.").toList = ("1.2.3.4").toList ++ inAddrArpa ∧
    (∃ e, ParseReverseZoneName "1.2.3.4.in-addr.arpa." = .error e) ∧
    ("g.ip6.arpa.").toList = ("g").toList ++ ip6Arpa ∧
    (∃ e, ParseReverseZoneName "g.ip6.arpa." = .error e) ∧
    ParseReverseZoneName "example.com." = .error "unsupported reverse zone name format" := by
  refine ⟨by decide, ?_, by decide, ?_, ?_⟩
  · exact (claim8_ParseReverseZoneName_errors "1.2.3.4.in-addr.arpa.").1
      ("1.2.3.4").toList (by decide) (by decide)
  · exact (claim8_ParseReverseZoneName_errors "g.ip6.arpa.").2.1
      ("g").toList (by decide) ⟨['g'], by decide, by decide⟩
  · exact (claim8_ParseReverseZoneName_errors "example.com.").2.2
      (by decide) (by decide)

/-- C6 as stated is refuted: a name of 32 labels before `.ip6.arpa.` whose
labels are not hex digits still fails, so success needs more than the label
count alone. -/
theorem claim6_counterexample :
    ("x.x.x.x.x.x.x.x.x.x.x.x.x.x.x.x.x.x.x.x.x.x.x.x.x.x.x.x.x.x.x.x.ip6.arpa.").toList =
      ("x.x.x.x.x.x.x.x.x.x.x.x.x.x.x.x.x.x.x.x.x.x.x.x.x.x.x.x.x.x.x.x").toList
        ++ ip6Arpa ∧
    ((("x.x.x.x.x.x.x.x.x.x.x.x.x.x.x.x.x.x.x.x.x.x.x.x.x.x.x.x.x.x.x.x").toList.splitOn
      '.').length = 32) ∧
    ∃ e, ParsePTRRecordName
      "x.x.x.x.x.x.x.x.x.x.x.x.x.x.x.x.x.x.x.x.x.x.x.x.x.x.x.x.x.x.x.x.ip6.arpa." =
        .error e := by
  refine ⟨by decide, by decide, ⟨"invalid nibble in IPv6 PTR record name", ?_⟩⟩
  rfl

/-- C6 amended: on an `.in-addr.arpa.` name, `ParsePTRRecordName` succeeds
exactly when there are exactly 4 labels before the suffix, returning the
reversed dotted-quad; on an `.ip6.arpa.` name it succeeds exactly when
there are exactly 32 labels before the suffix, each one a single hex digit,
returning the address built from the reversed nibbles; names carrying
neither suffix, or any other label count for the family, yield an error. -/
theorem claim6_amended_ParsePTRRecordName (s : String) :
    (∀ b, s.toList = b ++ inAddrArpa →
      ((∃ r, ParsePTRRecordName s = .ok r) ↔ (b.splitOn '.').length = 4) ∧
      ((b.splitOn '.').length = 4 →
        ParsePTRRecordName s = .ok (String.mk (dotJoin (b.splitOn '.').reverse)))) ∧
    (∀ b, s.toList = b ++ ip6Arpa →
      ((∃ r, ParsePTRRecordName s = .ok r) ↔
        ((b.splitOn '.').length = 32 ∧ ∀ lb ∈ b.splitOn '.', singleHexVal lb ≠ none)) ∧
      (∀ nibs, (b.splitOn '.').length = 32 →
        (b.splitOn '.').mapM singleHexVal = some nibs →
        ParsePTRRecordName s = .ok (renderV6 nibs.reverse))) ∧
    (¬ (inAddrArpa <:+ s.toList) → ¬ (ip6Arpa <:+ s.toList) →
      ParsePTRRecordName s = .error "unsupported PTR record name format") := by
  refine ⟨?_, ?_, ?_⟩
  · intro b hb
    unfold ParsePTRRecordName
    rw [hb]
    simp only [stripSuffix_append]
    constructor
    · constructor
      · rintro ⟨r, hr⟩
        by_cases hc : (b.splitOn '.').length = 4
        · exact hc
        · rw [if_neg hc] at hr
          exact absurd hr (by simp)
      · intro hc
        exact ⟨_, by rw [if_pos hc]⟩
    · intro hc
      rw [if_pos hc]
  · intro b hb
    unfold ParsePTRRecordName
    rw [hb]
    rw [stripSuffix_inAddr_of_ip6]
    simp only [stripSuffix_append]
    constructor
    · constructor
      · rintro ⟨r, hr⟩
        by_cases hc : (b.splitOn '.').length = 32
        · refine ⟨hc, ?_⟩
          rw [if_pos hc] at hr
          intro lb hlb hnone
          have hm : (b.splitOn '.').mapM singleHexVal = none :=
            (mapM_option_eq_none _ _).mpr ⟨lb, hlb, hnone⟩
          rw [hm] at hr
          exact absurd hr (by simp)
        · rw [if_neg hc] at hr
          exact absurd hr (by simp)
      · rintro ⟨hc, hall⟩
        rw [if_pos hc]
        cases hm : (b.splitOn '.').mapM singleHexVal with
        | none =>
          obtain ⟨lb, hlb, hnone⟩ := (mapM_option_eq_none _ _).mp hm
          exact absurd hnone (hall lb hlb)
        | some nibs =>
          exact ⟨renderV6 nibs.reverse, rfl⟩
    · intro nibs hc hm
      rw [if_pos hc, hm]
  · intro h4 h6
    unfold ParsePTRRecordName
    cases hs4 : stripSuffix s.toList inAddrArpa with
    | some b =>
      exact absurd (stripSuffix_eq_some hs4 ▸ List.suffix_append b inAddrArpa) h4
    | none =>
      cases hs6 : stripSuffix s.toList ip6Arpa with
      | some b =>
        exact absurd (stripSuffix_eq_some hs6 ▸ List.suffix_append b ip6Arpa) h6
      | none => simp only [hs4, hs6]

/-- Instantiation of the amended C6 at the test file's inputs. -/
theorem claim6_amended_ParsePTRRecordName_witness :
    ("4.3.2.1.in-addr.arpa.").toList = ("4.3.2.1").toList ++ inAddrArpa ∧
    ParsePTRRecordName "4.3.2.1.in-addr.arpa." = .ok "1.2.3.4" ∧
    (∃ r, ParsePTRRecordName "4.3.2.in-addr.arpa." = .ok r → False) ∧
    ParsePTRRecordName "example.com." = .error "unsupported PTR record name format" := by
  refine ⟨by decide, ?_, ?_, ?_⟩
  · have h := ((claim6_amended_ParsePTRRecordName "4.3.2.1.in-addr.arpa.").1
      ("4.3.2.1").toList (by decide)).2 (by decide)
    rw [h]
    rfl
  · refine ⟨"1.2.3.4", fun hv => ?_⟩
    have h := (((claim6_amended_ParsePTRRecordName "4.3.2.in-addr.arpa.").1
      ("4.3.2").toList (by decide)).1).mp ⟨_, hv⟩
    exact absurd h (by decide)
  · exact (claim6_amended_ParsePTRRecordName "example.com.").2.2 (by decide) (by decide)

/-- C2: for every parseable IP address, parsing the owner name produced by
`GetPTRRecordName` with the family-appropriate arpa suffix appended
succeeds and returns the address itself (in its canonical textual form),
for both families. -/
theorem claim2_ptr_round_trip (s : String) (a : IPAddr) (h : parseIP s = some a) :
    ∃ n, GetPTRRecordName s = .ok n ∧
      ParsePTRRecordName (n ++ arpaSuffix a) = .ok (ipCanonical a) := by
  cases a with
  | v4 os =>
    obtain ⟨hlen, hbound⟩ := parseIPchars_v4 h
    have hos : os ≠ [] := by
      intro h0
      rw [h0] at hlen
      simp at hlen
    refine ⟨String.mk (dotJoin ((os.reverse).map natChars)), ?_, ?_⟩
    · unfold GetPTRRecordName
      simp only [h]
    · show ParsePTRRecordName
        (String.mk (dotJoin ((os.reverse).map natChars)) ++ ".in-addr.arpa.") = _
      rw [ParsePTRRecordName_v4_labels ((os.reverse).map natChars)
        (dot_not_mem_octet_labels os.reverse) (by simp [hos]) (by simp [hlen])]
      rw [List.map_reverse, List.reverse_reverse]
      rfl
  | v6 ns =>
    obtain ⟨hlen, hbound⟩ := parseIPchars_v6 h
    refine ⟨String.mk (dotJoin ((ns.reverse).map fun n => [Nat.digitChar n])), ?_, ?_⟩
    · unfold GetPTRRecordName
      simp only [h]
    · show ParsePTRRecordName
        (String.mk (dotJoin ((ns.reverse).map fun n => [Nat.digitChar n]))
          ++ ".ip6.arpa.") = _
      rw [ParsePTRRecordName_v6_labels ns.reverse
        (fun n hn => hbound n (List.mem_reverse.mp hn)) (by simp [hlen])]
      rw [List.reverse_reverse]
      rfl

/-- Instantiation of C2 at one address of each family. -/
theorem claim2_ptr_round_trip_witness :
    parseIP "192.168.1.10" = some (IPAddr.v4 [192, 168, 1, 10]) ∧
    (∃ n, GetPTRRecordName "192.168.1.10" = .ok n ∧
      ParsePTRRecordName (n ++ arpaSuffix (IPAddr.v4 [192, 168, 1, 10])) =
        .ok (ipCanonical (IPAddr.v4 [192, 168, 1, 10]))) ∧
    parseIP "2001:db8::1" =
      some (IPAddr.v6 ([2, 0, 0, 1, 0, 13, 11, 8] ++ List.replicate 20 0 ++ [0, 0, 0, 1])) ∧
    (∃ n, GetPTRRecordName "2001:db8::1" = .ok n ∧
      ParsePTRRecordName (n ++ arpaSuffix
          (IPAddr.v6 ([2, 0, 0, 1, 0, 13, 11, 8] ++ List.replicate 20 0 ++ [0, 0, 0, 1]))) =
        .ok (ipCanonical
          (IPAddr.v6 ([2, 0, 0, 1, 0, 13, 11, 8] ++ List.replicate 20 0 ++ [0, 0, 0, 1])))) :=
  ⟨by decide, claim2_ptr_round_trip _ _ (by decide),
    by decide, claim2_ptr_round_trip _ _ (by decide)⟩

/-- C1: every CIDR string accepted by the validator round-trips:
`GetReverseZoneName` succeeds, and `ParseReverseZoneName` of the produced
zone name succeeds and returns the CIDR with its address normalized down to
the significant prefix (trailing octets or nibbles zeroed). -/
theorem claim1_reverse_zone_round_trip (c k : String)
    (h : ValidateCIDR (.str c) k = ([], [])) :
    ∃ ip p, parseCIDR c = some (ip, p) ∧ prefixLegal ip p ∧
      GetReverseZoneName c = .ok (reverseZoneName ip p) ∧
      ParseReverseZoneName (reverseZoneName ip p) = .ok (normalizeCIDR ip p) := by
  obtain ⟨s, ip, p, hv, hq, hl⟩ := (claim7_ValidateCIDR_spec (.str c) k).1.mp h
  injection hv with hsc
  subst hsc
  refine ⟨ip, p, hq, hl, ?_, ?_⟩
  · cases ip with
    | v4 os =>
      unfold GetReverseZoneName
      simp only [hq]
      rw [if_pos (show p = 8 ∨ p = 16 ∨ p = 24 from hl)]
      rfl
    | v6 ns =>
      unfold GetReverseZoneName
      simp only [hq]
      rw [if_pos (show p % 4 = 0 ∧ 4 ≤ p ∧ p ≤ 124 from hl)]
      rfl
  · cases ip with
    | v4 os =>
      have hl' : p = 8 ∨ p = 16 ∨ p = 24 := hl
      obtain ⟨aa, mm, _, hipc, _⟩ := parseCIDR_parseIPchars hq
      obtain ⟨hlen4, hbound⟩ := parseIPchars_v4 hipc
      have hN1 : 1 ≤ p / 8 := by rcases hl' with rfl | rfl | rfl <;> norm_num
      have hN3 : p / 8 ≤ 3 := by rcases hl' with rfl | rfl | rfl <;> norm_num
      have hNp : p / 8 * 8 = p := by rcases hl' with rfl | rfl | rfl <;> norm_num
      have hlsl : (((os.take (p / 8)).reverse).map natChars).length = p / 8 := by
        rw [List.length_map, List.length_reverse, List.length_take, hlen4]
        omega
      show ParseReverseZoneName
        (String.mk (dotJoin (((os.take (p / 8)).reverse).map natChars))
          ++ ".in-addr.arpa.") = _
      rw [ParseReverseZoneName_v4_labels (((os.take (p / 8)).reverse).map natChars)
        (dot_not_mem_octet_labels _)
        (by
          intro h0
          rw [h0] at hlsl
          simp at hlsl
          omega)
        (by rw [hlsl]; omega)]
      rw [hlsl, List.map_reverse, List.reverse_reverse, hNp]
      have hnorm : normalizeCIDR (IPAddr.v4 os) p = String.mk (dotJoin
          ((os.take (p / 8) ++ List.replicate (4 - p / 8) 0).map natChars))
          ++ "/" ++ natStr p := rfl
      rw [hnorm, List.map_append, List.map_replicate, natChars_zero]
    | v6 ns =>
      have hl' : p % 4 = 0 ∧ 4 ≤ p ∧ p ≤ 124 := hl
      obtain ⟨aa, mm, _, hipc, _⟩ := parseCIDR_parseIPchars hq
      obtain ⟨hlen32, hbound⟩ := parseIPchars_v6 hipc
      have hNp : p / 4 * 4 = p := Nat.div_mul_cancel (Nat.dvd_of_mod_eq_zero hl'.1)
      have hN1 : 1 ≤ p / 4 := by omega
      have hll : ((ns.take (p / 4)).reverse).length = p / 4 := by
        rw [List.length_reverse, List.length_take, hlen32]
        omega
      show ParseReverseZoneName
        (String.mk (dotJoin (((ns.take (p / 4)).reverse).map fun n => [Nat.digitChar n]))
          ++ ".ip6.arpa.") = _
      rw [ParseReverseZoneName_v6_labels ((ns.take (p / 4)).reverse)
        (fun n hn => hbound n (List.mem_of_mem_take (List.mem_reverse.mp hn)))
        (by
          intro h0
          rw [h0] at hll
          simp at hll
          omega)]
      rw [List.reverse_reverse, hll, hNp]
      rfl

/-- Instantiation of C1 at one accepted CIDR of each family. -/
theorem claim1_reverse_zone_round_trip_witness :
    ValidateCIDR (.str "172.16.0.0/16") "cidr" = ([], []) ∧
    (∃ ip p, parseCIDR "172.16.0.0/16" = some (ip, p) ∧ prefixLegal ip p ∧
      GetReverseZoneName "172.16.0.0/16" = .ok (reverseZoneName ip p) ∧
      ParseReverseZoneName (reverseZoneName ip p) = .ok (normalizeCIDR ip p)) ∧
    ValidateCIDR (.str "2001:db8::/32") "cidr" = ([], []) ∧
    (∃ ip p, parseCIDR "2001:db8::/32" = some (ip, p) ∧ prefixLegal ip p ∧
      GetReverseZoneName "2001:db8::/32" = .ok (reverseZoneName ip p) ∧
      ParseReverseZoneName (reverseZoneName ip p) = .ok (normalizeCIDR ip p)) :=
  ⟨by decide, claim1_reverse_zone_round_trip "172.16.0.0/16" "cidr" (by decide),
    by decide, claim1_reverse_zone_round_trip "2001:db8::/32" "cidr" (by decide)⟩

/-- C9 as stated is refuted: `Record.name = "a:"` and `Record.rtype = "b"`
contain no `:::`, yet the ID `"a::::b"` splits at the leftmost of its two
overlapping separator matches, so `parseID` returns `("a", ":b")` instead
of the original fields. -/
theorem claim9_counterexample :
    (¬ (idSeparator.toList <:+: ("a:").toList)) ∧
    (¬ (idSeparator.toList <:+: ("b").toList)) ∧
    parseID (Record.ID { name := "a:", rtype := "b" }) = .ok ("a", ":b") ∧
    parseID (Record.ID { name := "a:", rtype := "b" }) ≠ .ok ("a:", "b") := by
  refine ⟨by decide, by decide, rfl, ?_⟩
  intro hc
  rw [show parseID (Record.ID { name := "a:", rtype := "b" }) = .ok ("a", ":b") from rfl]
    at hc
  injection hc with h
  exact absurd h (by decide)

/-- C9 amended: for every record whose `name` contains no `:::` and does
not end in `:` and whose `rtype` contains no `:::`, `parseID` applied to
`ID()` returns exactly that name and type with no error; and `parseID`
returns the unknown-record-ID-format error exactly when splitting its
input on `:::` does not yield exactly two parts. -/
theorem claim9_amended_parseID_round_trip (r : Record)
    (h1 : ¬ (idSeparator.toList <:+: r.name.toList))
    (h2 : r.name.toList.getLast? ≠ some ':')
    (h3 : ¬ (idSeparator.toList <:+: r.rtype.toList)) :
    parseID r.ID = .ok (r.name, r.rtype) ∧
    ∀ recID : String, (parseID recID = .error "unknown record ID format" ↔
      (splitOnSub idSeparator.toList recID.toList).length ≠ 2) := by
  constructor
  · unfold parseID Record.ID
    have htl : (r.name ++ idSeparator ++ r.rtype).toList =
        r.name.toList ++ [':', ':', ':'] ++ r.rtype.toList := rfl
    rw [htl, show idSeparator.toList = [':', ':', ':'] from rfl,
      splitOnSub_idSep r.name.toList r.rtype.toList h1 h2 h3]
    rfl
  · intro recID
    unfold parseID
    cases hsp : splitOnSub idSeparator.toList recID.toList with
    | nil => simp
    | cons x t =>
      cases t with
      | nil => simp
      | cons y t2 =>
        cases t2 with
        | nil => simp
        | cons z t3 => simp

/-- Instantiation of the amended C9 at a realistic record. -/
theorem claim9_amended_parseID_round_trip_witness :
    parseID (Record.ID { name := "www.example.com.", rtype := "A" }) =
      .ok ("www.example.com.", "A") ∧
    (parseID "noseparator" = .error "unknown record ID format" ↔
      (splitOnSub idSeparator.toList ("noseparator").toList).length ≠ 2) := by
  have h := claim9_amended_parseID_round_trip { name := "www.example.com.", rtype := "A" }
    (by decide) (by decide) (by decide)
  exact ⟨h.1, h.2 "noseparator"⟩

/-- C10: in each PTR-record operation (Create, Read, Update, Delete) the
owner name used against the server is only constructed after
`GetPTRRecordName` succeeded, and is that name with `.in-addr.arpa.`
appended when the address parses as IPv4 and `.ip6.arpa.` appended
otherwise - so it ends in exactly one of the two arpa suffixes, chosen by
the address family alone. -/
theorem claim10_ptr_owner_names (s : String) :
    (∀ e, GetPTRRecordName s = .error e →
      ptrCreateOwnerName s = .error ("failed to determine PTR record name: " ++ e) ∧
      ptrReadOwnerName s = .error ("failed to determine PTR record name: " ++ e) ∧
      ptrUpdateOwnerName s = .error ("failed to determine PTR record name: " ++ e) ∧
      ptrDeleteOwnerName s = .error ("failed to determine PTR record name: " ++ e)) ∧
    (∀ n, GetPTRRecordName s = .ok n →
      ((goSuffixForIP s = ".in-addr.arpa." ∧ ∃ os, parseIP s = some (.v4 os)) ∨
        (goSuffixForIP s = ".ip6.arpa." ∧ ∃ ns, parseIP s = some (.v6 ns))) ∧
      ptrCreateOwnerName s = .ok (n ++ goSuffixForIP s) ∧
      ptrReadOwnerName s = .ok (n ++ goSuffixForIP s) ∧
      ptrUpdateOwnerName s = .ok (n ++ goSuffixForIP s) ∧
      ptrDeleteOwnerName s = .ok (n ++ goSuffixForIP s) ∧
      (inAddrArpa <:+ (n ++ goSuffixForIP s).toList ↔
        goSuffixForIP s = ".in-addr.arpa.") ∧
      (ip6Arpa <:+ (n ++ goSuffixForIP s).toList ↔
        goSuffixForIP s = ".ip6.arpa.")) := by
  constructor
  · intro e he
    refine ⟨?_, ?_, ?_, ?_⟩
    · unfold ptrCreateOwnerName
      simp only [he]
    · unfold ptrReadOwnerName
      simp only [he]
    · unfold ptrUpdateOwnerName
      simp only [he]
    · unfold ptrDeleteOwnerName
      simp only [he]
  · intro n hn
    cases hip : parseIP s with
    | none =>
      unfold GetPTRRecordName at hn
      rw [hip] at hn
      replace hn : (Except.error ("invalid IP address: " ++ s) : Except String String) =
          .ok n := hn
      exact absurd hn (by simp)
    | some a =>
      cases a with
      | v4 os =>
        have hsfx : goSuffixForIP s = ".in-addr.arpa." := by
          unfold goSuffixForIP
          simp only [hip]
        have hsuf : inAddrArpa <:+ (n ++ ".in-addr.arpa.").toList := by
          rw [toList_append]
          exact List.suffix_append _ _
        refine ⟨Or.inl ⟨hsfx, os, rfl⟩, ?_, ?_, ?_, ?_, ?_, ?_⟩
        · unfold ptrCreateOwnerName
          simp only [hn]
        · unfold ptrReadOwnerName
          simp only [hn]
        · unfold ptrUpdateOwnerName
          simp only [hn]
        · unfold ptrDeleteOwnerName
          simp only [hn]
        · rw [hsfx]
          exact ⟨fun _ => rfl, fun _ => hsuf⟩
        · rw [hsfx]
          constructor
          · intro h6
            exact (not_both_arpa hsuf h6).elim
          · intro hcontra
            exact absurd hcontra (by decide)
      | v6 ns =>
        have hsfx : goSuffixForIP s = ".ip6.arpa." := by
          unfold goSuffixForIP
          simp only [hip]
        have hsuf : ip6Arpa <:+ (n ++ ".ip6.arpa.").toList := by
          rw [toList_append]
          exact List.suffix_append _ _
        refine ⟨Or.inr ⟨hsfx, ns, rfl⟩, ?_, ?_, ?_, ?_, ?_, ?_⟩
        · unfold ptrCreateOwnerName
          simp only [hn]
        · unfold ptrReadOwnerName
          simp only [hn]
        · unfold ptrUpdateOwnerName
          simp only [hn]
        · unfold ptrDeleteOwnerName
          simp only [hn]
        · rw [hsfx]
          constructor
          · intro h4
            exact (not_both_arpa h4 hsuf).elim
          · intro hcontra
            exact absurd hcontra (by decide)
        · rw [hsfx]
          exact ⟨fun _ => rfl, fun _ => hsuf⟩

/-- Instantiation of C10 at a parseable IPv4 address, a parseable IPv6
address and an unparseable one. -/
theorem claim10_ptr_owner_names_witness :
    GetPTRRecordName "192.168.1.10" = .ok "10.1.168.192" ∧
    ptrCreateOwnerName "192.168.1.10" =
      .ok ("10.1.168.192" ++ goSuffixForIP "192.168.1.10") ∧
    goSuffixForIP "192.168.1.10" = ".in-addr.arpa." ∧
    ptrDeleteOwnerName "bogus" =
      .error ("failed to determine PTR record name: " ++ "invalid IP address: bogus") := by
  have h := (claim10_ptr_owner_names "192.168.1.10").2 "10.1.168.192" rfl
  have he := (claim10_ptr_owner_names "bogus").1 "invalid IP address: bogus" rfl
  exact ⟨rfl, h.2.1, rfl, he.2.2.2⟩

end PDNS
